import Mathlib

/-!
# Verification of the Svelte-docs segmentation and search-ranking pipeline

Shallow embedding of the core functions of `src/search-docs.tsx`:

* `Depth1` namespace: the line-based, depth-1-only segmenter variant together
  with its content-based classifier (`parseDocsText`, `detectType`), which is
  the variant at lines 321-549 of the source file.
* `AllDepths` namespace: the line-based segmenter that treats headings of depth
  1-3 as boundaries, its title-based classifier, `generateUrl`, the
  deterministic scorer `getMatchScore`, and the filter-and-sort pipeline
  `filteredSections` (lines 810-1069 of the source file).

Shared helpers model the JavaScript string primitives used by the source
(`toLowerCase`, `includes`, `startsWith`, `split`, `trim`, `replace`).
-/

/-! ## JavaScript string primitives -/

/-- The whitespace characters relevant to the source's `\s` regex class and
`String.prototype.trim` (ASCII whitespace plus no-break space). -/
def isJsSpace (c : Char) : Bool :=
  c = ' ' || c = '\t' || c = '\n' || c = '\r' || c = '\x0b' || c = '\x0c' || c = ' '

/-- ASCII lowercasing of one character, as `String.prototype.toLowerCase`
acts on the characters appearing in this pipeline. -/
def lowCh : Char → Char
  | 'A' => 'a' | 'B' => 'b' | 'C' => 'c' | 'D' => 'd' | 'E' => 'e' | 'F' => 'f'
  | 'G' => 'g' | 'H' => 'h' | 'I' => 'i' | 'J' => 'j' | 'K' => 'k' | 'L' => 'l'
  | 'M' => 'm' | 'N' => 'n' | 'O' => 'o' | 'P' => 'p' | 'Q' => 'q' | 'R' => 'r'
  | 'S' => 's' | 'T' => 't' | 'U' => 'u' | 'V' => 'v' | 'W' => 'w' | 'X' => 'x'
  | 'Y' => 'y' | 'Z' => 'z'
  | c => c

/-- `s.toLowerCase()`. -/
def sLower (s : String) : String := ⟨s.data.map lowCh⟩

/-- `leadsWith p s` holds when the character list `s` begins with `p`. -/
def leadsWith : List Char → List Char → Bool
  | [], _ => true
  | _ :: _, [] => false
  | a :: ps, b :: ss => a = b && leadsWith ps ss

/-- `hasSub n h` holds when `n` occurs as a contiguous run inside `h`
(JavaScript `h.includes(n)` on character lists). -/
def hasSub : List Char → List Char → Bool
  | n, [] => n.isEmpty
  | n, c :: t => leadsWith n (c :: t) || hasSub n t

/-- `s.includes(sub)`. -/
def sHas (s sub : String) : Bool := hasSub sub.data s.data

/-- `s.startsWith(p)`. -/
def sStarts (s p : String) : Bool := leadsWith p.data s.data

/-- `s.substring(n)` (drop the first `n` characters). -/
def sDrop (s : String) (n : Nat) : String := ⟨s.data.drop n⟩

/-- `text.split('\n')` on character lists: every `'\n'` separates segments and
empty segments are kept, so the result is always non-empty. -/
def splitNl : List Char → List (List Char)
  | [] => [[]]
  | c :: rest =>
    match splitNl rest with
    | [] => [[c]]
    | seg :: segs => if c = '\n' then [] :: seg :: segs else (c :: seg) :: segs

/-- `lines.join('\n')`. -/
def joinNl : List String → String
  | [] => ""
  | [s] => s
  | s :: rest => s ++ "\n" ++ joinNl rest

/-- `s.trim()`: strip leading and trailing whitespace. -/
def jsTrim (s : String) : String :=
  ⟨((s.data.dropWhile isJsSpace).reverse.dropWhile isJsSpace).reverse⟩

/-- One step of global replacement: `replAllFuel p r fuel s` replaces every
occurrence of the non-empty pattern `p` by `r` in `s`, scanning left to right.
The fuel argument (always instantiated with `s.length`) only makes the
recursion structural; it is never exhausted. -/
def replAllFuel (p r : List Char) : Nat → List Char → List Char
  | 0, s => s
  | _ + 1, [] => []
  | fuel + 1, c :: rest =>
    if leadsWith p (c :: rest) then
      r ++ replAllFuel p r fuel (rest.drop (p.length - 1))
    else
      c :: replAllFuel p r fuel rest

/-- `s.replace(/pat/g, rep)` for a literal pattern. -/
def replAll (p r s : List Char) : List Char := replAllFuel p r s.length s

/-- Splitting on maximal runs of separator characters, as
`s.split(/[^k]+/)` does for a character class `k`: `p` recognises the *kept*
characters, and every maximal run of non-kept characters produces exactly one
boundary (with empty segments kept at the edges). Implemented as a right fold
whose Boolean state records whether the adjacent character to the right was a
separator. -/
def tokStep (p : Char → Bool) (c : Char) : List (List Char) × Bool → List (List Char) × Bool
  | (acc, sepR) =>
    if p c then
      (match acc with
       | [] => [[c]]
       | h :: t => (c :: h) :: t, false)
    else if sepR then (acc, true)
    else ([] :: acc, true)

/-- `s.split(/[^k]+/)` where `p` recognises the kept class `k`. -/
def tokenize (p : Char → Bool) (s : List Char) : List (List Char) :=
  (s.foldr (tokStep p) ([[]], false)).1

/-! ## Shared pipeline helpers (identical in both source variants) -/

/-- Characters kept by the keyword-splitting regex `[^a-z0-9$]+`. -/
def isKeywordChar (c : Char) : Bool :=
  ('a' ≤ c && c ≤ 'z') || ('0' ≤ c && c ≤ '9') || c = '$'

/-- `extractKeywords(title)`: lowercase, split on runs outside `[a-z0-9$]`,
keep tokens of length `> 2`. -/
def extractKeywords (title : String) : List String :=
  ((tokenize isKeywordChar (sLower title).data).map
      (fun cs => (⟨cs⟩ : String))).filter (fun word => word.length > 2)

namespace Depth1

/-- The section record produced by the depth-1-only variant (its `type` union
of seventeen string literals is modelled as `String`). -/
structure DocSection where
  title : String
  content : String
  type : String
  keywords : List String
deriving DecidableEq, Repr

/-- First-match evaluation of the ordered classification rule chain: the
category of the first rule whose condition holds, defaulting to `"concept"`. -/
def firstMatch : List (Bool × String) → String
  | [] => "concept"
  | (b, cat) :: rest => if b then cat else firstMatch rest

/-- The ordered (condition, category) chain of `detectType`, one entry per
`if` statement of the source, evaluated on the lowercased body. The source
also computes `titleLower` and `hasParens`, but no rule reads them. -/
def typeRules (contentLower : String) : List (Bool × String) :=
  let hasCodeBlocks := sHas contentLower "```" || sHas contentLower "`"
  let hasImports := sHas contentLower "import " || sHas contentLower "from "
  let hasDollarSigns := sHas contentLower "$"
  let hasBrackets := sHas contentLower "\x7b" && sHas contentLower "\x7d"
  let hasAngleBrackets := sHas contentLower "<" && sHas contentLower ">"
  let hasColons := sHas contentLower ":"
  [ (hasDollarSigns &&
      (sHas contentLower "$state" || sHas contentLower "$derived" ||
       sHas contentLower "$effect" || sHas contentLower "$props" ||
       sHas contentLower "$bindable" || sHas contentLower "$inspect" ||
       sHas contentLower "$host"), "rune"),
    (hasColons &&
      (sHas contentLower "use:" || sHas contentLower "bind:" ||
       sHas contentLower "transition:" || sHas contentLower "animate:" ||
       sHas contentLower "style:" || sHas contentLower "class:" ||
       sHas contentLower "in:" || sHas contentLower "out:"), "directive"),
    (hasBrackets && (sHas contentLower "\x7b#" || sHas contentLower "\x7b@"), "block"),
    (sHas contentLower "\x7b#if" || sHas contentLower "\x7b#each" ||
     sHas contentLower "\x7b#await" || sHas contentLower "\x7b#key" ||
     sHas contentLower "\x7b#snippet" || sHas contentLower "\x7b@render" ||
     sHas contentLower "\x7b@html" || sHas contentLower "\x7b@attach" ||
     sHas contentLower "\x7b@const" || sHas contentLower "\x7b@debug", "block"),
    (hasAngleBrackets && sHas contentLower "svelte:", "element"),
    (hasImports && (sHas contentLower "$app" || sHas contentLower "@sveltejs"), "module"),
    (hasCodeBlocks && (sHas contentLower "function" || sHas contentLower "interface"), "api"),
    (sHas contentLower "config" || sHas contentLower "adapter", "config"),
    (sHas contentLower "migration" || sHas contentLower "upgrade", "migration"),
    (sHas contentLower "error" || sHas contentLower "warning", "error"),
    (sHas contentLower "scoped styles" || sHas contentLower "global styles" ||
     sHas contentLower "custom properties" || sHas contentLower "css" ||
     sHas contentLower "style" || sHas contentLower "styling", "styling"),
    (sHas contentLower "testing" || sHas contentLower "test" ||
     sHas contentLower "vitest" || sHas contentLower "playwright" ||
     sHas contentLower "unit test" || sHas contentLower "e2e", "testing"),
    (sHas contentLower "typescript" || sHas contentLower "tsconfig" ||
     sHas contentLower "type safety" || sHas contentLower "interface" ||
     sHas contentLower "generic" || sHas contentLower "jsconfig", "typescript"),
    (sHas contentLower "stores" || sHas contentLower "writable" ||
     sHas contentLower "readable" || sHas contentLower "derived store" ||
     sHas contentLower "store" || sHas contentLower "reactive store", "stores"),
    (sHas contentLower "context" || sHas contentLower "setcontext" ||
     sHas contentLower "getcontext" || sHas contentLower "context api", "context"),
    (sHas contentLower "lifecycle" || sHas contentLower "onmount" ||
     sHas contentLower "ondestroy" || sHas contentLower "beforeupdate" ||
     sHas contentLower "afterupdate" || sHas contentLower "tick", "lifecycle"),
    (sHas contentLower "legacy" || sHas contentLower "deprecated" ||
     sHas contentLower "svelte 3" || sHas contentLower "svelte 4" ||
     sHas contentLower "sapper" || sHas contentLower "export let" ||
     sHas contentLower "reactive" || sHas contentLower "slot", "legacy") ]

/-- `detectType(title, content)` of the depth-1 variant. The `title`
parameter is lowered by the source into an unused local, so only the body
text decides the category. -/
def detectType (title content : String) : String :=
  let _titleLower := sLower title
  firstMatch (typeRules (sLower content))

/-- The boundary test `line.match(/^#\s+/)`: a `#` at column 0 followed by at
least one whitespace character. -/
def isBoundary (l : String) : Bool :=
  match l.data with
  | '#' :: c :: _ => isJsSpace c
  | _ => false

/-- `line.replace(/^#\s+/, '')`: strip the leading `#` and the whitespace run
after it when the boundary regex matches, otherwise leave the line unchanged. -/
def titleOf (l : String) : String :=
  match l.data with
  | '#' :: c :: rest => if isJsSpace c then ⟨(c :: rest).dropWhile isJsSpace⟩ else l
  | _ => l

/-- Build the emitted record for a finished section from its title and raw
accumulated body lines (`content = contentLines.join('\n').trim()`, with the
category computed from title and content at flush time). -/
def mkSection (title : String) (buf : List String) : DocSection :=
  let content := jsTrim (joinNl buf)
  { title := title, content := content, type := detectType title content,
    keywords := extractKeywords title }

/-- The emission guard of the source's flush: the pending section's title is
a non-empty (truthy) string and the raw line buffer is non-empty
(`currentSection.title && contentLines.length > 0`). -/
def emitGuard (t : String) (buf : List String) : Bool :=
  t ≠ "" && !buf.isEmpty

/-- Flush the pending section: the source pushes it only when a section is
open and the emission guard holds. -/
def flushSection (cur : Option String) (buf : List String) : List DocSection :=
  match cur with
  | none => []
  | some t => if emitGuard t buf then [mkSection t buf] else []

/-- The scan loop of `parseDocsText` (depth-1 variant) over the line list,
carrying the pending title and the raw body-line buffer. -/
def parseLines : List String → Option String → List String → List DocSection
  | [], cur, buf => flushSection cur buf
  | l :: rest, cur, buf =>
    if isBoundary l then
      flushSection cur buf ++ parseLines rest (some (titleOf l)) []
    else
      match cur with
      | none => parseLines rest none buf
      | some t => parseLines rest (some t) (buf ++ [l])

/-- The cosmetic callout normalisation applied to the whole document before
splitting: five global literal replacements turning bracketed admonition tags
into single-glyph prefixes. -/
def normalizeCallouts (text : String) : String :=
  let t1 := replAll "[!NOTE]".data "ℹ️".data text.data
  let t2 := replAll "[!WARNING]".data "⚠️".data t1
  let t3 := replAll "[!TIP]".data "💡".data t2
  let t4 := replAll "[!IMPORTANT]".data "🔥".data t3
  let t5 := replAll "[!CAUTION]".data "🚨".data t4
  ⟨t5⟩

/-- The document's lines: callout normalisation followed by `split('\n')`. -/
def docLines (text : String) : List String :=
  (splitNl (normalizeCallouts text).data).map (fun cs => (⟨cs⟩ : String))

/-- `parseDocsText(text)` of the depth-1-only variant. -/
def parseDocsText (text : String) : List DocSection :=
  parseLines (docLines text) none []

/-- Ghost companion of `parseLines` that records, for each emitted section,
its heading line together with the raw body lines it accumulated; used to
state the partition invariant. -/
def rawFlush (cur : Option String) (buf : List String) : List (String × List String) :=
  match cur with
  | none => []
  | some h => if emitGuard (titleOf h) buf then [(h, buf)] else []

/-- Same scan as `parseLines`, keeping the heading line and the raw buffer. -/
def rawParse : List String → Option String → List String → List (String × List String)
  | [], cur, buf => rawFlush cur buf
  | l :: rest, cur, buf =>
    if isBoundary l then
      rawFlush cur buf ++ rawParse rest (some l) []
    else
      match cur with
      | none => rawParse rest none buf
      | some h => rawParse rest (some h) (buf ++ [l])

end Depth1

namespace AllDepths

/-- The section record of the all-depths variant (six-value `type` union
modelled as `String`, plus the derived documentation URL). -/
structure DocSection where
  title : String
  content : String
  type : String
  url : String
  keywords : List String
deriving DecidableEq, Repr

/-- The regex test `lower.match(/^[a-z]+$/)`: non-empty and consisting only
of lowercase ASCII letters. -/
def isAllLowerAlpha (s : String) : Bool :=
  !s.data.isEmpty && s.data.all (fun c => 'a' ≤ c && c ≤ 'z')

/-- `detectType(title)` of the all-depths variant: an if-cascade over the
lowercased title only. -/
def detectType (title : String) : String :=
  let lower := sLower title
  if sHas lower "$app" || sHas lower "@sveltejs" || sHas lower "import" then "module"
  else if isAllLowerAlpha lower then "function"
  else if sHas lower "component" || sHas lower "element" then "component"
  else if sHas lower "config" || sHas lower "adapter" then "config"
  else if sHas lower "hook" then "hook"
  else "concept"

/-- Characters kept by the slug regex class `[a-z0-9]`. -/
def isSlugChar (c : Char) : Bool :=
  ('a' ≤ c && c ≤ 'z') || ('0' ≤ c && c ≤ '9')

/-- `/^-|-$/g`: remove one leading and one trailing dash. -/
def stripDashes (s : String) : String :=
  let d1 := match s.data with
    | '-' :: r => r
    | r => r
  let d2 := match d1.reverse with
    | '-' :: r => r.reverse
    | _ => d1
  ⟨d2⟩

/-- `generateUrl(title)`: lowercase, collapse runs outside `[a-z0-9]` to a
single dash, strip edge dashes. All three branches of the source return the
same `/docs/kit/` URL; the dead conditionals are kept. -/
def generateUrl (title : String) : String :=
  let slug := stripDashes
    ⟨(List.intersperse "-" ((tokenize isSlugChar (sLower title).data).map
        (fun cs => (⟨cs⟩ : String)))).foldl (fun a b => a ++ b.data) []⟩
  if sHas title "$app" then "https://svelte.dev/docs/kit/" ++ slug
  else if sHas title "@sveltejs" then "https://svelte.dev/docs/kit/" ++ slug
  else "https://svelte.dev/docs/kit/" ++ slug

/-- Build the emitted record for a finished section of the all-depths
variant: `type`, `url` and `keywords` are derived from the title alone, the
content is the joined and trimmed raw buffer. -/
def mkSection (title : String) (buf : List String) : DocSection :=
  { title := title, content := jsTrim (joinNl buf), type := detectType title,
    url := generateUrl title, keywords := extractKeywords title }

/-- Flush the pending section under the source's guard
(`currentSection && currentSection.title && contentBuffer.length > 0`). -/
def flushSection (cur : Option String) (buf : List String) : List DocSection :=
  match cur with
  | none => []
  | some t => if t ≠ "" && !buf.isEmpty then [mkSection t buf] else []

/-- Depth-1 boundary of the all-depths variant:
`line.startsWith('# ') && !line.includes('@sveltejs')`. -/
def isDepth1 (l : String) : Bool :=
  sStarts l "# " && !(sHas l "@sveltejs")

/-- Depth-2/3 boundary: `line.startsWith('## ') || line.startsWith('### ')`. -/
def isDepth23 (l : String) : Bool :=
  sStarts l "## " || sStarts l "### "

/-- Title of a depth-2/3 boundary line: `line.substring(level + 1).trim()`. -/
def titleDepth23 (l : String) : String :=
  jsTrim (sDrop l (if sStarts l "## " then 3 else 4))

/-- The scan loop of `parseDocsText` (all-depths variant). -/
def parseLines : List String → Option String → List String → List DocSection
  | [], cur, buf => flushSection cur buf
  | l :: rest, cur, buf =>
    if isDepth1 l then
      flushSection cur buf ++ parseLines rest (some (jsTrim (sDrop l 2))) []
    else if isDepth23 l then
      flushSection cur buf ++ parseLines rest (some (titleDepth23 l)) []
    else
      match cur with
      | none => parseLines rest none buf
      | some t => parseLines rest (some t) (buf ++ [l])

/-- The document's lines: `text.split('\n')` (no normalisation pass in this
variant). -/
def docLines (text : String) : List String :=
  (splitNl text.data).map (fun cs => (⟨cs⟩ : String))

/-- `parseDocsText(text)` of the all-depths variant. -/
def parseDocsText (text : String) : List DocSection :=
  parseLines (docLines text) none []

/-- `getMatchScore(section, search)`: the additive deterministic score. -/
def getMatchScore (sec : DocSection) (search : String) : Nat :=
  (if sec.keywords.any (fun k => k = search) then 100 else 0) +
  (if sec.keywords.any (fun k => sHas k search) then 50 else 0) +
  (if sLower sec.title = search then 30 else 0) +
  (if sHas (sLower sec.title) search then 20 else 0) +
  (if sHas (sLower sec.content) search then 10 else 0)

/-- The inclusion predicate of the `.filter` callback: with an empty query
every section passes, otherwise the lowercased query must occur in the
lowercased title, in some keyword, or in the lowercased content. -/
def inclPred (searchText : String) (sec : DocSection) : Bool :=
  if searchText = "" then true
  else
    sHas (sLower sec.title) (sLower searchText) ||
    sec.keywords.any (fun k => sHas k (sLower searchText)) ||
    sHas (sLower sec.content) (sLower searchText)

/-- The `.sort` comparator as a "may come first" Boolean relation:
`(a, b) => scoreB - scoreA` keeps `a` before `b` exactly when
`score b ≤ score a`, and compares equal (keeping document order) on an empty
query. -/
def rankRel (searchText : String) (a b : DocSection) : Bool :=
  if searchText = "" then true
  else decide (getMatchScore b (sLower searchText) ≤ getMatchScore a (sLower searchText))

end AllDepths

/-- Insert `x` into `l` before the first element `y` with `r x y`; the
building block of the stable sort. -/
def insertStable (r : α → α → Bool) (x : α) : List α → List α
  | [] => [x]
  | y :: ys => if r x y then x :: y :: ys else y :: insertStable r x ys

/-- A stable sort with respect to the "may come first" relation `r`
(insertion sort). JavaScript's `Array.prototype.sort` is required to be
stable, so any stable sort models it whenever the comparator induces a total
preorder, as the score comparator does. -/
def sortStable (r : α → α → Bool) : List α → List α
  | [] => []
  | x :: xs => insertStable r x (sortStable r xs)

namespace AllDepths

/-- `filteredSections`: filter by the inclusion predicate, then stably sort
by descending score (`sections.filter(...).sort(...)`). -/
def filteredSections (sections : List DocSection) (searchText : String) : List DocSection :=
  sortStable (rankRel searchText) (sections.filter (inclPred searchText))

end AllDepths

/-- The concrete scenario input of the specification's testable property 7. -/
def scenarioInput : String :=
  "# Foo\nHello world\n\n# Bar\nuse:clickOutside directive here"

/-! ## Lemmas about the string primitives -/

theorem leadsWith_append_left (p q s : List Char) (h : leadsWith (p ++ q) s = true) :
    leadsWith p s = true := by
  induction p generalizing s with
  | nil => rfl
  | cons a ps ih =>
    cases s with
    | nil => simp [leadsWith] at h
    | cons b ss =>
      simp only [List.cons_append, leadsWith, Bool.and_eq_true] at h ⊢
      exact ⟨h.1, ih ss h.2⟩

theorem hasSub_append_left (p q s : List Char) (h : hasSub (p ++ q) s = true) :
    hasSub p s = true := by
  induction s with
  | nil =>
    simp only [hasSub, List.isEmpty_iff] at h ⊢
    exact List.append_eq_nil.mp h |>.1
  | cons c t ih =>
    simp only [hasSub, Bool.or_eq_true] at h ⊢
    rcases h with h | h
    · exact Or.inl (leadsWith_append_left p q _ h)
    · exact Or.inr (ih h)

/-- A string containing `"$state"` contains `"$"`. -/
theorem sHas_dollar_of_state (s : String) (h : sHas s "$state" = true) :
    sHas s "$" = true :=
  hasSub_append_left "$".data "state".data s.data h

/-! ## Lemmas about the stable insertion sort -/

theorem mem_insertStable {r : α → α → Bool} {x a : α} {l : List α} :
    a ∈ insertStable r x l ↔ a = x ∨ a ∈ l := by
  induction l with
  | nil => simp [insertStable]
  | cons y ys ih =>
    cases hr : r x y <;> (simp [insertStable, hr, ih]; try tauto)

theorem perm_insertStable (r : α → α → Bool) (x : α) (l : List α) :
    (insertStable r x l).Perm (x :: l) := by
  induction l with
  | nil => simp [insertStable]
  | cons y ys ih =>
    cases hr : r x y
    · simp only [insertStable, hr, Bool.false_eq_true, if_false]
      exact (ih.cons y).trans (List.Perm.swap x y ys)
    · simp [insertStable, hr]

theorem perm_sortStable (r : α → α → Bool) (l : List α) : (sortStable r l).Perm l := by
  induction l with
  | nil => simp [sortStable]
  | cons x xs ih =>
    exact (perm_insertStable r x (sortStable r xs)).trans (ih.cons x)

theorem mem_sortStable {r : α → α → Bool} {a : α} {l : List α} :
    a ∈ sortStable r l ↔ a ∈ l :=
  (perm_sortStable r l).mem_iff

theorem insertStable_true (x : α) (l : List α) :
    insertStable (fun _ _ => true) x l = x :: l := by
  cases l <;> simp [insertStable]

theorem sortStable_true (l : List α) : sortStable (fun _ _ => true) l = l := by
  induction l with
  | nil => rfl
  | cons x xs ih => simp [sortStable, ih, insertStable_true]

theorem pairwise_insertStable (key : α → Nat) (x : α) (l : List α)
    (h : l.Pairwise (fun a b => key b ≤ key a)) :
    (insertStable (fun a b => decide (key b ≤ key a)) x l).Pairwise
      (fun a b => key b ≤ key a) := by
  induction l with
  | nil => simp [insertStable]
  | cons y ys ih =>
    rcases List.pairwise_cons.mp h with ⟨hy, hys⟩
    by_cases hr : key y ≤ key x
    · simp only [insertStable, decide_eq_true hr, if_true]
      refine List.Pairwise.cons ?_ h
      intro b hb
      rcases List.mem_cons.mp hb with rfl | hb
      · exact hr
      · exact le_trans (hy b hb) hr
    · simp only [insertStable, decide_eq_false hr, Bool.false_eq_true, if_false]
      refine List.Pairwise.cons ?_ (ih hys)
      intro b hb
      rcases mem_insertStable.mp hb with rfl | hb
      · exact le_of_not_le hr
      · exact hy b hb

theorem pairwise_sortStable (key : α → Nat) (l : List α) :
    (sortStable (fun a b => decide (key b ≤ key a)) l).Pairwise
      (fun a b => key b ≤ key a) := by
  induction l with
  | nil => simp [sortStable]
  | cons x xs ih => exact pairwise_insertStable key x _ ih

theorem filter_insertStable (key : α → Nat) (n : Nat) (x : α) (l : List α) :
    (insertStable (fun a b => decide (key b ≤ key a)) x l).filter
        (fun a => decide (key a = n)) =
      if key x = n then x :: l.filter (fun a => decide (key a = n))
      else l.filter (fun a => decide (key a = n)) := by
  induction l with
  | nil => by_cases hx : key x = n <;> simp [insertStable, List.filter, hx]
  | cons y ys ih =>
    by_cases hr : key y ≤ key x
    · simp only [insertStable, decide_eq_true hr, if_true]
      by_cases hx : key x = n <;> by_cases hyn : key y = n <;>
        simp [List.filter_cons, hx, hyn]
    · simp only [insertStable, decide_eq_false hr, Bool.false_eq_true, if_false]
      by_cases hx : key x = n
      · have hyn : ¬ key y = n := by omega
        simp [List.filter_cons, ih, hx, hyn]
      · by_cases hyn : key y = n <;> simp [List.filter_cons, ih, hx, hyn]

theorem filter_sortStable (key : α → Nat) (n : Nat) (l : List α) :
    (sortStable (fun a b => decide (key b ≤ key a)) l).filter
        (fun a => decide (key a = n)) =
      l.filter (fun a => decide (key a = n)) := by
  induction l with
  | nil => rfl
  | cons x xs ih =>
    by_cases hx : key x = n <;>
      simp [sortStable, filter_insertStable, List.filter_cons, hx, ih]

/-! ## Lemmas about the depth-1 segmenter -/

/-- The emitted blocks (heading line plus raw body lines) of a scan with an
open section form a subsequence of the pending block followed by the
remaining lines. -/
theorem rawParse_flatten_sublist_some (lines : List String) :
    ∀ (h : String) (buf : List String),
      (((Depth1.rawParse lines (some h) buf).map (fun p => p.1 :: p.2)).flatten).Sublist
        ((h :: buf) ++ lines) := by
  induction lines with
  | nil =>
    intro h buf
    simp only [Depth1.rawParse, Depth1.rawFlush]
    cases hg : Depth1.emitGuard (Depth1.titleOf h) buf <;> simp [hg]
  | cons l rest ih =>
    intro h buf
    simp only [Depth1.rawParse]
    by_cases hb : Depth1.isBoundary l = true
    · rw [if_pos hb]
      rw [List.map_append, List.flatten_append]
      have h2 : (((Depth1.rawParse rest (some l) []).map (fun p => p.1 :: p.2)).flatten).Sublist
          (l :: rest) := by simpa using ih l []
      have h1 : (((Depth1.rawFlush (some h) buf).map (fun p => p.1 :: p.2)).flatten).Sublist
          (h :: buf) := by
        simp only [Depth1.rawFlush]
        cases hg : Depth1.emitGuard (Depth1.titleOf h) buf <;> simp [hg]
      simpa using h1.append h2
    · rw [if_neg hb]
      have := ih h (buf ++ [l])
      simpa [List.append_assoc] using this

/-- With no open section the emitted blocks form a subsequence of the
remaining lines. -/
theorem rawParse_flatten_sublist_none (lines : List String) :
    ∀ buf : List String,
      (((Depth1.rawParse lines none buf).map (fun p => p.1 :: p.2)).flatten).Sublist lines := by
  induction lines with
  | nil => intro buf; simp [Depth1.rawParse, Depth1.rawFlush]
  | cons l rest ih =>
    intro buf
    simp only [Depth1.rawParse]
    by_cases hb : Depth1.isBoundary l = true
    · rw [if_pos hb]
      simp only [Depth1.rawFlush, List.nil_append]
      simpa using rawParse_flatten_sublist_some rest l []
    · rw [if_neg hb]
      exact (ih buf).cons l

/-- Every emitted block of a scan with an open section is a contiguous slice
of the pending block followed by the remaining lines. -/
theorem rawParse_block_slice_some (lines : List String) :
    ∀ (h : String) (buf : List String) (p : String × List String),
      p ∈ Depth1.rawParse lines (some h) buf →
      ∃ pre post, (h :: buf) ++ lines = pre ++ (p.1 :: p.2) ++ post := by
  induction lines with
  | nil =>
    intro h buf p hp
    simp only [Depth1.rawParse, Depth1.rawFlush] at hp
    cases hg : Depth1.emitGuard (Depth1.titleOf h) buf <;> rw [hg] at hp
    · simp at hp
    · simp only [if_true, List.mem_singleton] at hp
      subst hp
      exact ⟨[], [], by simp⟩
  | cons l rest ih =>
    intro h buf p hp
    simp only [Depth1.rawParse] at hp
    by_cases hb : Depth1.isBoundary l = true
    · rw [if_pos hb] at hp
      rcases List.mem_append.mp hp with hp | hp
      · simp only [Depth1.rawFlush] at hp
        cases hg : Depth1.emitGuard (Depth1.titleOf h) buf <;> rw [hg] at hp
        · simp at hp
        · simp only [if_true, List.mem_singleton] at hp
          subst hp
          exact ⟨[], l :: rest, by simp⟩
      · rcases ih l [] p hp with ⟨pre, post, hsplit⟩
        refine ⟨(h :: buf) ++ pre, post, ?_⟩
        simp only [List.singleton_append] at hsplit
        simp only [List.append_assoc, List.cons_append, List.nil_append] at hsplit ⊢
        rw [hsplit]
    · rw [if_neg hb] at hp
      rcases ih h (buf ++ [l]) p hp with ⟨pre, post, hsplit⟩
      refine ⟨pre, post, ?_⟩
      simp only [List.append_assoc, List.cons_append, List.nil_append,
        List.singleton_append] at hsplit ⊢
      rw [← hsplit]

/-- Every emitted block of the whole scan is a contiguous slice of the
document's lines. -/
theorem rawParse_block_slice_none (lines : List String) :
    ∀ (buf : List String) (p : String × List String),
      p ∈ Depth1.rawParse lines none buf →
      ∃ pre post, lines = pre ++ (p.1 :: p.2) ++ post := by
  induction lines with
  | nil => intro buf p hp; simp [Depth1.rawParse, Depth1.rawFlush] at hp
  | cons l rest ih =>
    intro buf p hp
    simp only [Depth1.rawParse] at hp
    by_cases hb : Depth1.isBoundary l = true
    · rw [if_pos hb] at hp
      simp only [Depth1.rawFlush, List.nil_append] at hp
      rcases rawParse_block_slice_some rest l [] p hp with ⟨pre, post, hsplit⟩
      refine ⟨pre, post, ?_⟩
      simpa using hsplit
    · rw [if_neg hb] at hp
      rcases ih buf p hp with ⟨pre, post, hsplit⟩
      exact ⟨l :: pre, post, by simp [hsplit]⟩

/-- The flush of `parseLines` agrees with the ghost flush. -/
theorem flushSection_eq_rawFlush (cur : Option String) (buf : List String) :
    Depth1.flushSection (cur.map Depth1.titleOf) buf =
      (Depth1.rawFlush cur buf).map
        (fun p => Depth1.mkSection (Depth1.titleOf p.1) p.2) := by
  cases cur with
  | none => rfl
  | some h =>
    simp only [Option.map_some', Depth1.flushSection, Depth1.rawFlush]
    cases hg : Depth1.emitGuard (Depth1.titleOf h) buf <;> simp [hg]

/-- The scan of `parseDocsText` agrees with the ghost scan: each emitted
section is built from its block's heading line and raw body lines. -/
theorem parseLines_eq_rawParse (lines : List String) :
    ∀ (cur : Option String) (buf : List String),
      Depth1.parseLines lines (cur.map Depth1.titleOf) buf =
        (Depth1.rawParse lines cur buf).map
          (fun p => Depth1.mkSection (Depth1.titleOf p.1) p.2) := by
  induction lines with
  | nil =>
    intro cur buf
    exact flushSection_eq_rawFlush cur buf
  | cons l rest ih =>
    intro cur buf
    by_cases hb : Depth1.isBoundary l = true
    · simp only [Depth1.parseLines, Depth1.rawParse, if_pos hb, List.map_append,
        flushSection_eq_rawFlush cur buf]
      have := ih (some l) []
      simp only [Option.map_some'] at this
      rw [this]
    · cases cur with
      | none =>
        simp only [Depth1.parseLines, Depth1.rawParse, Option.map_none', if_neg hb]
        exact ih none buf
      | some h =>
        simp only [Depth1.parseLines, Depth1.rawParse, Option.map_some', if_neg hb]
        have := ih (some h) (buf ++ [l])
        simpa using this

/-- A scan that sees no boundary line and has no open section emits nothing. -/
theorem parseLines_no_boundary (lines : List String) :
    ∀ buf : List String, (∀ l ∈ lines, Depth1.isBoundary l = false) →
      Depth1.parseLines lines none buf = [] := by
  induction lines with
  | nil => intro buf _; rfl
  | cons l rest ih =>
    intro buf hnb
    have hb : Depth1.isBoundary l = false := hnb l (by simp)
    simp only [Depth1.parseLines, hb, Bool.false_eq_true, if_false]
    exact ih buf (fun x hx => hnb x (by simp [hx]))

/-! ## Lemmas about the classifier rule chain and the tokenizer -/

/-- First-match evaluation defaults to `"concept"` when no condition holds. -/
theorem firstMatch_eq_concept (L : List (Bool × String))
    (h : ∀ p ∈ L, p.1 = false) : Depth1.firstMatch L = "concept" := by
  induction L with
  | nil => rfl
  | cons p rest ih =>
    obtain ⟨b, cat⟩ := p
    have hb : b = false := h (b, cat) (by simp)
    simp only [Depth1.firstMatch, hb, Bool.false_eq_true, if_false]
    exact ih (fun q hq => h q (by simp [hq]))

/-- One tokenizer step preserves "all token characters are kept characters". -/
theorem tokStep_chars (p : Char → Bool) (c : Char) (st : List (List Char) × Bool)
    (h : ∀ seg ∈ st.1, ∀ d ∈ seg, p d = true) :
    ∀ seg ∈ (tokStep p c st).1, ∀ d ∈ seg, p d = true := by
  obtain ⟨acc, flag⟩ := st
  simp only [tokStep]
  by_cases hc : p c = true
  · rw [if_pos hc]
    cases acc with
    | nil =>
      intro seg hseg d hd
      simp only [List.mem_singleton] at hseg
      subst hseg
      simp only [List.mem_singleton] at hd
      subst hd
      exact hc
    | cons hd0 tl =>
      intro seg hseg d hd
      rcases List.mem_cons.mp hseg with rfl | hseg
      · rcases List.mem_cons.mp hd with rfl | hd
        · exact hc
        · exact h hd0 (by simp) d hd
      · exact h seg (by simp [hseg]) d hd
  · rw [if_neg hc]
    by_cases hf : flag = true
    · rw [hf, if_pos rfl]
      exact h
    · rw [if_neg hf]
      intro seg hseg d hd
      rcases List.mem_cons.mp hseg with rfl | hseg
      · simp at hd
      · exact h seg hseg d hd

/-- Every token produced by the run-splitting tokenizer consists only of kept
characters. -/
theorem tokenize_chars (p : Char → Bool) (s : List Char) :
    ∀ seg ∈ tokenize p s, ∀ d ∈ seg, p d = true := by
  unfold tokenize
  induction s with
  | nil =>
    intro seg hseg d hd
    simp only [List.foldr_nil, List.mem_singleton] at hseg
    subst hseg
    simp at hd
  | cons c s ih =>
    rw [List.foldr_cons]
    exact tokStep_chars p c _ ih

/-! ## Helper conversions for the ranking pipeline -/

/-- With a non-empty query the sort comparator is descending comparison of
the scores against the lowercased query. -/
theorem rankRel_eq_key (q : String) (hq : q ≠ "") :
    AllDepths.rankRel q = fun a b =>
      decide (AllDepths.getMatchScore b (sLower q) ≤ AllDepths.getMatchScore a (sLower q)) := by
  funext a b
  simp [AllDepths.rankRel, hq]

/-- With a non-empty query the inclusion predicate is the three-way substring
test against the lowercased query. -/
theorem inclPred_eq (q : String) (hq : q ≠ "") :
    AllDepths.inclPred q = fun s =>
      sHas (sLower s.title) (sLower q) || s.keywords.any (fun k => sHas k (sLower q)) ||
        sHas (sLower s.content) (sLower q) := by
  funext s
  simp [AllDepths.inclPred, hq]

/-! ## Claims -/

/-- **C1** — For every input text, segmentation produces a non-overlapping
partition of the document's lines: the emitted blocks (heading line plus raw
body lines), concatenated in document order, form a subsequence of the
document's lines (no line is assigned to more than one section); each block
is a contiguous slice of the lines (no line is missing inside a section); and
`parseDocsText` emits exactly one section per block, titled by the block's
heading and carrying the block's body joined and trimmed. -/
theorem claim1_partition (text : String) :
    (((Depth1.rawParse (Depth1.docLines text) none []).map
        (fun p => p.1 :: p.2)).flatten).Sublist (Depth1.docLines text) ∧
    (∀ p ∈ Depth1.rawParse (Depth1.docLines text) none [],
        ∃ pre post, Depth1.docLines text = pre ++ (p.1 :: p.2) ++ post) ∧
    Depth1.parseDocsText text =
      (Depth1.rawParse (Depth1.docLines text) none []).map
        (fun p => Depth1.mkSection (Depth1.titleOf p.1) p.2) := by
  refine ⟨rawParse_flatten_sublist_none _ _,
    fun p hp => rawParse_block_slice_none _ _ p hp, ?_⟩
  have h := parseLines_eq_rawParse (Depth1.docLines text) none []
  simpa [Depth1.parseDocsText, Option.map_none'] using h

theorem claim1_witness :
    ∃ pre post, Depth1.docLines "# A\nx" = pre ++ ("# A" :: ["x"]) ++ post :=
  (claim1_partition "# A\nx").2.1 ("# A", ["x"]) (by decide)

/-- **C2 counterexample** — a heading whose accumulated body is a single
blank line (here `"# A"` followed by a blank line and then another heading)
*is* emitted, with empty trimmed content; so a section can be emitted whose
body is empty after trimming, contradicting the claim. -/
theorem claim2_counterexample :
    (Depth1.parseDocsText "# A\n\n# B\nx").map (fun s => (s.title, s.content)) =
      [("A", ""), ("B", "x")] ∧
    ∃ s ∈ Depth1.parseDocsText "# A\n\n# B\nx", jsTrim s.content = "" := by
  decide

/-- **C2 (amended)** — a section is emitted exactly when the raw accumulated
line buffer is non-empty (the guard is `contentLines.length > 0`, not
emptiness after trimming): a heading immediately followed on the next line by
another heading produces no section for the first heading, while a heading
followed by one blank line and then another heading produces a section whose
content trims to the empty string. -/
theorem claim2_amended (h1 h2 : String) (rest : List String)
    (hb1 : Depth1.isBoundary h1 = true) (hb2 : Depth1.isBoundary h2 = true) :
    (Depth1.parseLines (h1 :: h2 :: rest) none [] = Depth1.parseLines (h2 :: rest) none []) ∧
    (Depth1.titleOf h1 ≠ "" →
      Depth1.parseLines (h1 :: "" :: h2 :: rest) none [] =
        Depth1.mkSection (Depth1.titleOf h1) [""] :: Depth1.parseLines (h2 :: rest) none []) := by
  constructor
  · simp only [Depth1.parseLines, if_pos hb1, if_pos hb2, Depth1.flushSection,
      Depth1.emitGuard]
    simp
  · intro ht
    have hbe : Depth1.isBoundary "" = false := rfl
    simp only [Depth1.parseLines, if_pos hb1, if_pos hb2, hbe, Bool.false_eq_true, if_false,
      Depth1.flushSection, Depth1.emitGuard]
    simp [ht]

theorem claim2_witness :
    Depth1.parseLines ["# A", "# B", "x"] none [] = Depth1.parseLines ["# B", "x"] none [] ∧
    Depth1.parseLines ["# A", "", "# B", "x"] none [] =
      Depth1.mkSection (Depth1.titleOf "# A") [""] ::
        Depth1.parseLines ["# B", "x"] none [] := by
  have h := claim2_amended "# A" "# B" ["x"] (by decide) (by decide)
  exact ⟨h.1, h.2 (by decide)⟩

/-- **C3** — the deterministic score is the sum of the five additive
contributions (100 keyword-equal, 50 keyword-contains, 30 title-equal,
20 title-contains, 10 body-contains, not mutually exclusive); and for a
non-empty query the ranked list is sorted by descending total score while
sections of equal score keep their original relative order (for every score
value, the subsequence of sections with that score is the same before and
after sorting). -/
theorem claim3_deterministic_scoring :
    (∀ (s : AllDepths.DocSection) (q : String),
        AllDepths.getMatchScore s q =
          (if s.keywords.any (fun k => k = q) then 100 else 0) +
          (if s.keywords.any (fun k => sHas k q) then 50 else 0) +
          (if sLower s.title = q then 30 else 0) +
          (if sHas (sLower s.title) q then 20 else 0) +
          (if sHas (sLower s.content) q then 10 else 0)) ∧
    (∀ (sections : List AllDepths.DocSection) (q : String), q ≠ "" →
        (AllDepths.filteredSections sections q).Pairwise
          (fun a b =>
            AllDepths.getMatchScore b (sLower q) ≤ AllDepths.getMatchScore a (sLower q)) ∧
        ∀ n : Nat,
          (AllDepths.filteredSections sections q).filter
              (fun s => decide (AllDepths.getMatchScore s (sLower q) = n)) =
            (sections.filter (AllDepths.inclPred q)).filter
              (fun s => decide (AllDepths.getMatchScore s (sLower q) = n))) := by
  constructor
  · intro s q
    rfl
  · intro sections q hq
    have hr := rankRel_eq_key q hq
    constructor
    · simp only [AllDepths.filteredSections, hr]
      exact pairwise_sortStable (fun s => AllDepths.getMatchScore s (sLower q)) _
    · intro n
      simp only [AllDepths.filteredSections, hr]
      exact filter_sortStable (fun s => AllDepths.getMatchScore s (sLower q)) n _

theorem claim3_witness :
    (AllDepths.filteredSections
        [{ title := "Beta alpha", content := "alpha here", type := "concept", url := "u",
           keywords := ["beta"] },
         { title := "Alpha", content := "body", type := "concept", url := "u",
           keywords := ["alpha"] }] "Alpha").Pairwise
      (fun a b =>
        AllDepths.getMatchScore b (sLower "Alpha") ≤
          AllDepths.getMatchScore a (sLower "Alpha")) ∧
    (AllDepths.filteredSections
        [{ title := "Beta alpha", content := "alpha here", type := "concept", url := "u",
           keywords := ["beta"] },
         { title := "Alpha", content := "body", type := "concept", url := "u",
           keywords := ["alpha"] }] "Alpha").filter
        (fun s => decide (AllDepths.getMatchScore s (sLower "Alpha") = 200)) =
      ([{ title := "Beta alpha", content := "alpha here", type := "concept", url := "u",
          keywords := ["beta"] },
        { title := "Alpha", content := "body", type := "concept", url := "u",
          keywords := ["alpha"] }].filter (AllDepths.inclPred "Alpha")).filter
        (fun s => decide (AllDepths.getMatchScore s (sLower "Alpha") = 200)) := by
  have h := claim3_deterministic_scoring.2
    [{ title := "Beta alpha", content := "alpha here", type := "concept", url := "u",
       keywords := ["beta"] },
     { title := "Alpha", content := "body", type := "concept", url := "u",
       keywords := ["alpha"] }] "Alpha" (by decide)
  exact ⟨h.1, h.2 200⟩

/-- **C4** — ranking with the empty query returns exactly the original list
in original order with nothing filtered out; a query matching no section
returns the empty list; and matching is case-insensitive: two non-empty
queries with the same lowercasing produce identical results. -/
theorem claim4_empty_query_no_match :
    (∀ sections : List AllDepths.DocSection,
        AllDepths.filteredSections sections "" = sections) ∧
    (∀ (sections : List AllDepths.DocSection) (q : String), q ≠ "" →
        (∀ s ∈ sections, AllDepths.inclPred q s = false) →
        AllDepths.filteredSections sections q = []) ∧
    (∀ (sections : List AllDepths.DocSection) (q1 q2 : String), q1 ≠ "" → q2 ≠ "" →
        sLower q1 = sLower q2 →
        AllDepths.filteredSections sections q1 = AllDepths.filteredSections sections q2) := by
  refine ⟨?_, ?_, ?_⟩
  · intro sections
    have h1 : AllDepths.inclPred "" = fun _ => true := by
      funext s
      simp [AllDepths.inclPred]
    have h2 : AllDepths.rankRel "" = fun _ _ => true := by
      funext a b
      simp [AllDepths.rankRel]
    simp only [AllDepths.filteredSections, h1, h2, List.filter_true, sortStable_true]
  · intro sections q hq hnone
    have hfil : sections.filter (AllDepths.inclPred q) = [] := by
      rw [List.filter_eq_nil_iff]
      intro s hs
      simp [hnone s hs]
    simp only [AllDepths.filteredSections, hfil]
    rfl
  · intro sections q1 q2 h1 h2 h12
    simp only [AllDepths.filteredSections, rankRel_eq_key q1 h1, rankRel_eq_key q2 h2,
      inclPred_eq q1 h1, inclPred_eq q2 h2, h12]

theorem claim4_witness :
    AllDepths.filteredSections
        [{ title := "Alpha", content := "body", type := "concept", url := "u",
           keywords := ["alpha"] }] "zzz" = [] ∧
    AllDepths.filteredSections
        [{ title := "Alpha", content := "body", type := "concept", url := "u",
           keywords := ["alpha"] }] "ALPHA" =
      AllDepths.filteredSections
        [{ title := "Alpha", content := "body", type := "concept", url := "u",
           keywords := ["alpha"] }] "alpha" := by
  refine ⟨claim4_empty_query_no_match.2.1 _ "zzz" (by decide) (by decide), ?_⟩
  exact claim4_empty_query_no_match.2.2 _ "ALPHA" "alpha" (by decide) (by decide) (by decide)

/-- **C5** — the concrete scenario: the depth-1 segmenter splits the input
into the two expected sections, the second classified `"directive"` by the
content classifier; and ranking the two parsed sections against `"foo"`
places the first strictly above the second (the second does not even pass the
inclusion filter, and its score is strictly smaller). -/
theorem claim5_concrete_scenario :
    (Depth1.parseDocsText scenarioInput).map (fun s => (s.title, s.content, s.type)) =
      [("Foo", "Hello world", "concept"),
       ("Bar", "use:clickOutside directive here", "directive")] ∧
    AllDepths.parseDocsText scenarioInput =
      [{ title := "Foo", content := "Hello world", type := "function",
         url := "https://svelte.dev/docs/kit/foo", keywords := ["foo"] },
       { title := "Bar", content := "use:clickOutside directive here", type := "function",
         url := "https://svelte.dev/docs/kit/bar", keywords := ["bar"] }] ∧
    AllDepths.filteredSections (AllDepths.parseDocsText scenarioInput) "foo" =
      [{ title := "Foo", content := "Hello world", type := "function",
         url := "https://svelte.dev/docs/kit/foo", keywords := ["foo"] }] ∧
    AllDepths.getMatchScore
        { title := "Bar", content := "use:clickOutside directive here", type := "function",
          url := "https://svelte.dev/docs/kit/bar", keywords := ["bar"] } "foo" <
      AllDepths.getMatchScore
        { title := "Foo", content := "Hello world", type := "function",
          url := "https://svelte.dev/docs/kit/foo", keywords := ["foo"] } "foo" := by
  decide

/-- **C6 counterexample** — the keyword regex keeps `$`, so the title
`"$app/stores"` yields the keywords `["$app", "stores"]`, not
`["app", "stores"]`: the `$`-fragment is not dropped but retained as part of
the token `"$app"`. -/
theorem claim6_counterexample :
    extractKeywords "$app/stores" = ["$app", "stores"] ∧
    extractKeywords "$app/stores" ≠ ["app", "stores"] := by
  decide

/-- **C6 (amended)** — keyword extraction lowercases the title, splits on any
run of characters outside lowercase-letter/digit/`$`, and keeps tokens of
length `> 2`; each kept token consists only of characters of the kept class
(so `$` survives inside tokens), and `"$app/stores"` yields exactly
`["$app", "stores"]`. -/
theorem claim6_amended :
    extractKeywords "$app/stores" = ["$app", "stores"] ∧
    ∀ (title word : String), word ∈ extractKeywords title →
      2 < word.length ∧ ∀ c ∈ word.data, isKeywordChar c = true := by
  refine ⟨by decide, ?_⟩
  intro title word hw
  unfold extractKeywords at hw
  rcases List.mem_filter.mp hw with ⟨hmem, hlen⟩
  refine ⟨by simpa using hlen, ?_⟩
  rcases List.mem_map.mp hmem with ⟨seg, hseg, rfl⟩
  intro c hc
  exact tokenize_chars isKeywordChar (sLower title).data seg hseg c hc

theorem claim6_witness : 2 < ("$app" : String).length :=
  (claim6_amended.2 "$app/stores" "$app" (by decide)).1

/-- **C7** — classification is a first-match ordered rule chain: a body
containing `$state` (and so the `$` sigil) matches the first rule and is
classified `"rune"` regardless of also containing the word `"style"`; and
whenever no rule's condition holds the result is the default `"concept"`. -/
theorem claim7_first_match_rules :
    (∀ title content : String,
        sHas (sLower content) "$state" = true → sHas (sLower content) "style" = true →
        Depth1.detectType title content = "rune") ∧
    (∀ title content : String,
        (∀ p ∈ Depth1.typeRules (sLower content), p.1 = false) →
        Depth1.detectType title content = "concept") := by
  constructor
  · intro title content hstate _hstyle
    have hd : sHas (sLower content) "$" = true := sHas_dollar_of_state _ hstate
    simp [Depth1.detectType, Depth1.typeRules, Depth1.firstMatch, hstate, hd]
  · intro title content h
    simp only [Depth1.detectType]
    exact firstMatch_eq_concept _ h

theorem claim7_witness :
    Depth1.detectType "T" "$state wins over style" = "rune" ∧
    Depth1.detectType "T" "hello" = "concept" := by
  refine ⟨claim7_first_match_rules.1 "T" "$state wins over style" (by decide) (by decide), ?_⟩
  exact claim7_first_match_rules.2 "T" "hello" (by decide)

/-- **C8** — segmentation is a total function: the empty string yields the
empty section list, and any document none of whose lines is a heading
boundary yields the empty section list. -/
theorem claim8_totality_no_headings :
    Depth1.parseDocsText "" = [] ∧
    ∀ text : String,
      (∀ l ∈ Depth1.docLines text, Depth1.isBoundary l = false) →
      Depth1.parseDocsText text = [] := by
  refine ⟨by decide, ?_⟩
  intro text h
  show Depth1.parseLines (Depth1.docLines text) none [] = []
  exact parseLines_no_boundary _ _ h

theorem claim8_witness : Depth1.parseDocsText "hello\nworld" = [] :=
  claim8_totality_no_headings.2 "hello\nworld" (by decide)

/-- **C9** — in the all-depths segmenter a depth-1 heading line containing
`"@sveltejs"` is not a boundary: with an open section it is appended
verbatim to the body buffer, and with no open section it is discarded. -/
theorem claim9_sveltejs_heading_not_boundary (l : String)
    (hstart : sStarts l "# " = true) (hsv : sHas l "@sveltejs" = true) :
    (∀ (rest buf : List String) (t : String),
        AllDepths.parseLines (l :: rest) (some t) buf =
          AllDepths.parseLines rest (some t) (buf ++ [l])) ∧
    (∀ rest buf : List String,
        AllDepths.parseLines (l :: rest) none buf = AllDepths.parseLines rest none buf) := by
  have hd1 : AllDepths.isDepth1 l = false := by
    simp [AllDepths.isDepth1, hsv]
  obtain ⟨tail, htail⟩ : ∃ tail, l.data = '#' :: ' ' :: tail := by
    unfold sStarts at hstart
    cases hld : l.data with
    | nil => rw [hld] at hstart; simp [leadsWith] at hstart
    | cons c1 cs =>
      cases cs with
      | nil => rw [hld] at hstart; simp [leadsWith] at hstart
      | cons c2 tail =>
        rw [hld] at hstart
        simp only [leadsWith, Bool.and_eq_true, decide_eq_true_eq] at hstart
        exact ⟨tail, by rw [← hstart.1, ← hstart.2.1]⟩
  have hd23 : AllDepths.isDepth23 l = false := by
    simp [AllDepths.isDepth23, sStarts, htail, leadsWith]
  constructor
  · intro rest buf t
    simp only [AllDepths.parseLines, hd1, hd23, Bool.false_eq_true, if_false]
  · intro rest buf
    simp only [AllDepths.parseLines, hd1, hd23, Bool.false_eq_true, if_false]

theorem claim9_witness :
    AllDepths.parseLines ["# @sveltejs/kit docs", "x"] (some "T") ["y"] =
      AllDepths.parseLines ["x"] (some "T") (["y"] ++ ["# @sveltejs/kit docs"]) ∧
    AllDepths.parseLines ["# @sveltejs/kit docs"] none [] =
      AllDepths.parseLines [] none [] := by
  have h := claim9_sveltejs_heading_not_boundary "# @sveltejs/kit docs" (by decide) (by decide)
  exact ⟨h.1 ["x"] ["y"] "T", h.2 [] []⟩

/-- **C10** — the inclusion filter and the scorer agree: any section passing
the inclusion filter for a non-empty query scores at least 10 against the
lowercased query, so every section of the ranked result list has score at
least 10 (no zero-scored section appears). -/
theorem claim10_included_scores_at_least_ten :
    (∀ (s : AllDepths.DocSection) (q : String), q ≠ "" →
        AllDepths.inclPred q s = true → 10 ≤ AllDepths.getMatchScore s (sLower q)) ∧
    (∀ (sections : List AllDepths.DocSection) (q : String), q ≠ "" →
        ∀ s ∈ AllDepths.filteredSections sections q,
          10 ≤ AllDepths.getMatchScore s (sLower q)) := by
  have hbase : ∀ (s : AllDepths.DocSection) (q : String), q ≠ "" →
      AllDepths.inclPred q s = true → 10 ≤ AllDepths.getMatchScore s (sLower q) := by
    intro s q hq hincl
    simp only [AllDepths.inclPred, if_neg hq, Bool.or_eq_true] at hincl
    rcases hincl with (h | h) | h <;>
      · simp only [AllDepths.getMatchScore, h, if_true]
        split_ifs <;> omega
  refine ⟨hbase, ?_⟩
  intro sections q hq s hs
  simp only [AllDepths.filteredSections] at hs
  have hmem : s ∈ sections.filter (AllDepths.inclPred q) := mem_sortStable.mp hs
  exact hbase s q hq (List.mem_filter.mp hmem).2

theorem claim10_witness :
    10 ≤ AllDepths.getMatchScore
        { title := "Foo", content := "Hello world", type := "function",
          url := "https://svelte.dev/docs/kit/foo", keywords := ["foo"] } (sLower "Foo") := by
  exact claim10_included_scores_at_least_ten.2
    [{ title := "Foo", content := "Hello world", type := "function",
       url := "https://svelte.dev/docs/kit/foo", keywords := ["foo"] }] "Foo" (by decide)
    _ (by decide)
